import Mathlib

/-!
Verification development for the PriceLabs price-adjustment tool.

The pipeline is shallowly embedded from the Python sources:
  * `src/pricelabs_tool/price_calculator.py` (the price transform),
  * `src/pricelabs_tool/__main__.py`       (console `update` command),
  * `src/pricelabs_tool/web_app.py`        (`/api/update-prices` endpoint),
  * `src/streamlit_app.py`                 (`batch_update` batch runner).

Python floats are modelled exactly over `ℚ`; network calls are modelled by
oracle functions returning `Exc` (an exception either propagates, carrying
the exception's string, or a value is returned).  Dictionary fields that the
code reads with `.get(key, default)` are modelled as `Option` fields, with
the defaulting applied exactly where the source applies it.
-/

namespace PriceLabs

/-- Python's `round` to an integer: round half to even (banker's rounding),
applied here to the exact rational value. -/
def roundHalfEven (q : ℚ) : ℤ :=
  let f := ⌊q⌋
  let r := q - (f : ℚ)
  if r < 1/2 then f
  else if 1/2 < r then f + 1
  else if f % 2 = 0 then f else f + 1

/-- Python's `int()` applied to a float: truncation toward zero. -/
def pyInt (q : ℚ) : ℤ := if 0 ≤ q then ⌊q⌋ else ⌈q⌉

/-- `price_calculator.calculate_adjusted_price` (price_calculator.py lines
28-40): `adjustment = 1 + (ADJUSTMENT_PERCENTAGE / 100 * (1 if increase else -1))`
then `round(price * adjustment)`.  The process-wide percentage constant is
passed as the `percent` argument. -/
def calculate_adjusted_price (percent : ℚ) (price : ℚ) (increase : Bool) : ℤ :=
  roundHalfEven (price * (1 + percent / 100 * (if increase then 1 else -1)))

/-- Modelled from the spec: `pricelabs_tool/config.py` is not present under
`src/`; the spec records the observed default adjustment percentage as 5,
and `streamlit_app.py` line 16 fixes its own copy to 5. -/
def ADJUSTMENT_PERCENTAGE : ℚ := 5

/-- `streamlit_app.calculate_adjusted_price` (streamlit_app.py lines 94-99):
no rounding, returns `price * (1 ± ADJUSTMENT_PERCENTAGE/100)`. -/
def st_calculate_adjusted_price (price : ℚ) (increase : Bool) : ℚ :=
  if increase then price * (1 + ADJUSTMENT_PERCENTAGE / 100)
  else price * (1 - ADJUSTMENT_PERCENTAGE / 100)

/-- Result of a Python expression that may raise: either the exception's
string propagates, or a value is produced. -/
inductive Exc (α : Type) where
  | raised (msg : String)
  | ok (a : α)
deriving DecidableEq

/-- The `price` field of an override dict: absent, present but not parsable
by `float()`, or parsing to a numeric value. -/
inductive PriceStr where
  | missing
  | bad
  | num (q : ℚ)
deriving DecidableEq

/-- What `float(override.get('price', 0))` yields: `0` when the key is
absent, the parsed value when parsable, and `none` when `float()` raises. -/
def PriceStr.parse : PriceStr → Option ℚ
  | .missing => some 0
  | .bad => none
  | .num q => some q

/-- A retrieved override record.  `date` is a calendar day as a day number
(the YYYY-MM-DD strings of the API compare lexicographically in the same
order).  `currency` and `min_stay` are optional dict keys. -/
structure Override where
  date : ℤ
  price : PriceStr
  price_type : String
  currency : Option String
  min_stay : Option ℤ
deriving DecidableEq

/-- An adjusted override record as built for submission: the `price` field
is the integer rendered by `str(int(new_price))`. -/
structure AdjOverride where
  date : ℤ
  price : ℤ
  price_type : String
  currency : String
  min_stay : ℤ
deriving DecidableEq

/-- A listing record.  `id` is the identifier already rendered as a string
(the code compares `str(l.get('id'))`); `isHidden` and `push_enabled` are
optional dict keys read with defaults `True` and `False`. -/
structure Listing where
  id : String
  name : String
  pms : Option String
  isHidden : Option Bool
  push_enabled : Option Bool
  currency : Option String
  min_stay : Option ℤ
deriving DecidableEq

/-- The message of the `ValueError` that `float()` raises on an unparsable
price; the concrete Python text is abstracted by this constant. -/
def floatError : String := "ValueError: could not convert string to float"

/-- The shared `adjusted_overrides` accumulation loop
(`__main__.py` lines 266-283, `web_app.py` lines 71-86, `streamlit_app.py`
lines 122-134): skip overrides whose `price_type` is not `'fixed'`; parse
the price with `float(override.get('price', 0))` (an unparsable price
raises, which the loop does not catch here — in `__main__.py` the
per-override handler itself re-raises while evaluating
`float(override.get('price', 0))` again, so the exception escapes in every
variant); keep strictly positive prices, building a record with the given
per-variant integer price function and `currency`/`min_stay` defaults. -/
def adjustLoop (priceOf : ℚ → ℤ) (defCur : String) (defStay : ℤ) :
    List Override → Exc (List AdjOverride)
  | [] => .ok []
  | o :: rest =>
    if o.price_type = "fixed" then
      match o.price.parse with
      | none => .raised floatError
      | some p =>
        if 0 < p then
          match adjustLoop priceOf defCur defStay rest with
          | .raised e => .raised e
          | .ok tail =>
            .ok ({ date := o.date
                   price := priceOf p
                   price_type := "fixed"
                   currency := o.currency.getD defCur
                   min_stay := o.min_stay.getD defStay } :: tail)
        else adjustLoop priceOf defCur defStay rest
    else adjustLoop priceOf defCur defStay rest

/-- `adjusted_overrides` as computed by `web_app.update_prices` and
`streamlit_app.batch_update`: defaults `'USD'` and `1`, submitted price
`str(int(new_price))`, where `transformQ` is the variant's float-valued
price transform. -/
def computeAdjusted (transformQ : ℚ → Bool → ℚ) (increase : Bool)
    (ovs : List Override) : Exc (List AdjOverride) :=
  adjustLoop (fun p => pyInt (transformQ p increase)) "USD" 1 ovs

/-- The web variant's float transform: `calculate_adjusted_price` of
`price_calculator.py` (already integer-valued, `int()` leaves it alone). -/
def webTransform (p : ℚ) (increase : Bool) : ℚ :=
  (calculate_adjusted_price ADJUSTMENT_PERCENTAGE p increase : ℚ)

/-- `adjusted_overrides` as computed by `__main__.update` (lines 266-283):
defaults come from the listing's `currency` and `min_stay`, and the price
transform is `calculate_adjusted_price`. -/
def mainComputeAdjusted (increase : Bool) (cur : String) (mstay : ℤ)
    (ovs : List Override) : Exc (List AdjOverride) :=
  adjustLoop (fun p => calculate_adjusted_price ADJUSTMENT_PERCENTAGE p increase)
    cur mstay ovs

/-- One entry of a dry-run preview (`price_changes` items). -/
structure PriceChange where
  date : ℤ
  old_price : ℚ
  new_price : ℚ
  currency : String
deriving DecidableEq

/-- Stable insertion keeping earlier equal-dated entries first, matching
the stability of Python's `sorted(..., key=lambda x: x['date'])`. -/
def insertByDate (o : Override) : List Override → List Override
  | [] => [o]
  | x :: xs => if x.date ≤ o.date then x :: insertByDate o xs else o :: x :: xs

/-- Stable sort by date, as `sorted(..., key=lambda x: x['date'])`. -/
def sortByDate : List Override → List Override
  | [] => []
  | o :: rest => insertByDate o (sortByDate rest)

/-- The dry-run preview loop (`streamlit_app.py` lines 136-150,
`web_app.py` lines 89-107): fixed-type overrides sorted by date, first 5,
those with positive parsed price mapped to a price-change record.  This
branch runs only after the adjusted computation succeeded, so every fixed
price parses there. -/
def previewChanges (transformQ : ℚ → Bool → ℚ) (increase : Bool)
    (ovs : List Override) : List PriceChange :=
  ((sortByDate (ovs.filter (fun o => o.price_type = "fixed"))).take 5).filterMap
    (fun o => o.price.parse.bind (fun p =>
      if 0 < p then
        some { date := o.date, old_price := p
               new_price := transformQ p increase
               currency := o.currency.getD "USD" }
      else none))

/-- Per-listing result status. -/
inductive Status where
  | success
  | error
deriving DecidableEq

/-- A per-listing Outcome as appended to `results`. -/
structure Outcome where
  id : String
  name : String
  status : Status
  message : Option String
deriving DecidableEq

/-- A per-listing dry-run summary entry as appended to `dry_run_summary`
(the error-shaped entry carries `changes = 0` and an `error` string). -/
structure Summary where
  id : String
  name : String
  changes : ℕ
  price_changes : List PriceChange
  error : Option String
deriving DecidableEq

/-- One outbound `update_listing_overrides` call: the listing id, the `pms`
passed along, and the submitted override batch. -/
structure Write where
  listing_id : String
  pms : Option String
  overrides : List AdjOverride
deriving DecidableEq

/-- What processing one listing contributes: at most one Outcome, at most
one dry-run summary entry, and at most one outbound write call. -/
structure ListingResult where
  outcome : Option Outcome
  summary : Option Summary
  write : Option Write
deriving DecidableEq

/-- The per-listing body shared by `streamlit_app.batch_update` (lines
118-179) and `web_app.update_prices` (lines 62-141): fetch the overrides
(a raised fetch error is caught at this level), build `adjusted_overrides`
(a `float()` error is caught at this level too), then either record a
dry-run summary, or — when `adjusted_overrides` is non-empty — submit them
and record a success/error Outcome.  An empty adjusted list in apply mode
records nothing. -/
def processListing (transformQ : ℚ → Bool → ℚ)
    (fetchOv : Listing → Exc (List Override))
    (submit : Listing → List AdjOverride → Exc Unit)
    (increase dry_run : Bool) (l : Listing) : ListingResult :=
  match fetchOv l with
  | .raised e =>
    if dry_run then
      ⟨none, some ⟨l.id, l.name, 0, [], some e⟩, none⟩
    else
      ⟨some ⟨l.id, l.name, .error, some e⟩, none, none⟩
  | .ok ovs =>
    match computeAdjusted transformQ increase ovs with
    | .raised e =>
      if dry_run then
        ⟨none, some ⟨l.id, l.name, 0, [], some e⟩, none⟩
      else
        ⟨some ⟨l.id, l.name, .error, some e⟩, none, none⟩
    | .ok adj =>
      if dry_run then
        ⟨none,
         some ⟨l.id, l.name, adj.length, previewChanges transformQ increase ovs, none⟩,
         none⟩
      else
        if adj.isEmpty then ⟨none, none, none⟩
        else
          match submit l adj with
          | .ok _ =>
            ⟨some ⟨l.id, l.name, .success, none⟩, none, some ⟨l.id, l.pms, adj⟩⟩
          | .raised e =>
            ⟨some ⟨l.id, l.name, .error, some e⟩, none, some ⟨l.id, l.pms, adj⟩⟩

/-- Sequential processing of a group of listings, concatenating results,
summaries and write calls in input order. -/
def processAll (transformQ : ℚ → Bool → ℚ)
    (fetchOv : Listing → Exc (List Override))
    (submit : Listing → List AdjOverride → Exc Unit)
    (increase dry_run : Bool) :
    List Listing → List Outcome × List Summary × List Write
  | [] => ([], [], [])
  | l :: ls =>
    let r := processListing transformQ fetchOv submit increase dry_run l
    let rest := processAll transformQ fetchOv submit increase dry_run ls
    (r.outcome.toList ++ rest.1, r.summary.toList ++ rest.2.1,
     r.write.toList ++ rest.2.2)

/-- `listings[i:i+batch_size]` slices of `for i in range(0, total,
batch_size)`: consecutive chunks of size `bs`.  Python raises on step 0,
so the `bs = 0` case is unreachable; it is mapped to `[]` here and all
theorems assume `0 < bs`. -/
def chunkList (bs : ℕ) (l : List α) : List (List α) :=
  match bs, l with
  | _, [] => []
  | 0, _ :: _ => []
  | b + 1, x :: xs => ((x :: xs).take (b + 1)) :: chunkList (b + 1) (xs.drop b)
termination_by l.length
decreasing_by simp [List.length_drop]; omega

/-- Aggregate state of a `batch_update` run: outcomes, dry-run summaries,
write calls made, and how many times `time.sleep(delay)` ran. -/
structure BatchState where
  results : List Outcome
  dry_run_summary : List Summary
  writes : List Write
  sleeps : ℕ
deriving DecidableEq

/-- The batch loop over the chunk list: process each chunk in order and
sleep after a chunk exactly when listings remain (`i + batch_size <
total`). -/
def batchGo (transformQ : ℚ → Bool → ℚ)
    (fetchOv : Listing → Exc (List Override))
    (submit : Listing → List AdjOverride → Exc Unit)
    (increase dry_run : Bool) : List (List Listing) → BatchState
  | [] => ⟨[], [], [], 0⟩
  | c :: rest =>
    let r := processAll transformQ fetchOv submit increase dry_run c
    let s := batchGo transformQ fetchOv submit increase dry_run rest
    ⟨r.1 ++ s.results, r.2.1 ++ s.dry_run_summary, r.2.2 ++ s.writes,
     (if rest.isEmpty then 0 else 1) + s.sleeps⟩

/-- `streamlit_app.batch_update` (lines 111-182): partition the listings
into `batch_size`-chunks, process each chunk sequentially, sleeping for
`delay` seconds between chunks, and return `(results,
dry_run_summary)`; the write calls and sleep count are carried as
observable effects. -/
def batch_update (transformQ : ℚ → Bool → ℚ)
    (fetchOv : Listing → Exc (List Override))
    (submit : Listing → List AdjOverride → Exc Unit)
    (increase dry_run : Bool) (batch_size : ℕ) (listings : List Listing) :
    BatchState :=
  batchGo transformQ fetchOv submit increase dry_run (chunkList batch_size listings)

/-- The body of `web_app.update_prices`'s JSON response: the outer handler
turns an uncaught exception into a 500 error payload; otherwise the
endpoint answers `{'status': 'success'}` with either `results` or the
dry-run `summary`. -/
inductive WebResponse where
  | fatal (msg : String)
  | okResults (results : List Outcome)
  | okDry (summary : List Summary)
deriving DecidableEq

/-- A `web_app.update_prices` run: the response plus the write calls made. -/
structure WebRun where
  response : WebResponse
  writes : List Write
deriving DecidableEq

/-- Python truthiness of a list: non-empty. -/
def listTruthy (l : List α) : Bool := !l.isEmpty

/-- The active-listing filter used by `web_app.update_prices` (lines 51-55),
`streamlit_app.fetch_listings` and `get_active_listings`:
`not listing.get('isHidden', True) and listing.get('push_enabled', False)`. -/
def activeFilter (l : Listing) : Bool :=
  !(l.isHidden.getD true) && l.push_enabled.getD false

/-- `web_app.update_prices` (web_app.py lines 39-158): fetch listings
(failure is caught by the outer handler → 500), keep active ones, restrict
to `listing_ids` when that list is non-empty, process every selected
listing with the shared per-listing body, and answer with `results` or the
dry-run `summary`.  When the id restriction selects nothing the loop runs
zero times and the endpoint still answers success with empty results. -/
def update_prices (fetchListings : Exc (List Listing))
    (fetchOv : Listing → Exc (List Override))
    (submit : Listing → List AdjOverride → Exc Unit)
    (increase dry_run : Bool) (listing_ids : List String) : WebRun :=
  match fetchListings with
  | .raised e => ⟨.fatal e, []⟩
  | .ok listings =>
    let active := listings.filter activeFilter
    let selected :=
      if listTruthy listing_ids then
        active.filter (fun l => l.id ∈ listing_ids)
      else active
    let r := processAll webTransform fetchOv submit increase dry_run selected
    ⟨if dry_run then .okDry r.2.1 else .okResults r.1, r.2.2⟩

/-- State of a console `update` run (`__main__.py` lines 207-334):
the write calls made, the number of rows appended to the error log, and
`aborted = some e` when an exception escaped the command (which happens
when a price fails to parse: the per-override handler re-raises while
evaluating `float(override.get('price', 0))`). -/
structure MainRun where
  writes : List Write
  errorLogs : ℕ
  aborted : Option String
deriving DecidableEq

/-- The per-listing loop of `__main__.update` (lines 238-334): fetch
overrides (failure → one error-log row, continue); build the adjusted list
(a parse failure aborts the whole run); submit when the list is non-empty
and the run is not a dry run (submit failure → one error-log row,
continue). -/
def mainLoop (fetchOv : Listing → Exc (List Override))
    (submit : Listing → List AdjOverride → Exc Unit)
    (increase dry_run : Bool) : List Listing → MainRun
  | [] => ⟨[], 0, none⟩
  | l :: ls =>
    match fetchOv l with
    | .raised _ =>
      let r := mainLoop fetchOv submit increase dry_run ls
      ⟨r.writes, 1 + r.errorLogs, r.aborted⟩
    | .ok ovs =>
      match mainComputeAdjusted increase (l.currency.getD "USD") (l.min_stay.getD 1) ovs with
      | .raised e => ⟨[], 0, some e⟩
      | .ok adj =>
        if listTruthy adj && !dry_run then
          match submit l adj with
          | .ok _ =>
            let r := mainLoop fetchOv submit increase dry_run ls
            ⟨⟨l.id, some (l.pms.getD "N/A"), adj⟩ :: r.writes, r.errorLogs, r.aborted⟩
          | .raised _ =>
            let r := mainLoop fetchOv submit increase dry_run ls
            ⟨⟨l.id, some (l.pms.getD "N/A"), adj⟩ :: r.writes, 1 + r.errorLogs, r.aborted⟩
        else
          let r := mainLoop fetchOv submit increase dry_run ls
          ⟨r.writes, r.errorLogs, r.aborted⟩

/-- `__main__.update` (lines 212-334): fetch all listings (failure → one
error-log row, return); when ids were passed, keep only listings whose
`str(id)` is among them and, if none remain, log one aggregate
"No listings found with IDs" row and return; otherwise run the per-listing
loop over the selection (note: `update` applies no active-listing
filter). -/
def mainUpdate (increase dry_run : Bool) (ids : List String)
    (fetchListings : Exc (List Listing))
    (fetchOv : Listing → Exc (List Override))
    (submit : Listing → List AdjOverride → Exc Unit) : MainRun :=
  match fetchListings with
  | .raised _ => ⟨[], 1, none⟩
  | .ok listings =>
    if listTruthy ids then
      let selected := listings.filter (fun l => l.id ∈ ids)
      if selected.isEmpty then ⟨[], 1, none⟩
      else mainLoop fetchOv submit increase dry_run selected
    else mainLoop fetchOv submit increase dry_run listings

/-- The eligibility test the accumulation loop implements: fixed price
type and a price that parses to a strictly positive number. -/
def eligibleOverride (o : Override) : Bool :=
  (o.price_type = "fixed") &&
    (match o.price.parse with
     | some p => decide (0 < p)
     | none => false)

/-- The submission record built from one eligible override. -/
def adjustedRecord (priceOf : ℚ → ℤ) (defCur : String) (defStay : ℤ)
    (o : Override) : AdjOverride :=
  { date := o.date
    price := priceOf (o.price.parse.getD 0)
    price_type := "fixed"
    currency := o.currency.getD defCur
    min_stay := o.min_stay.getD defStay }

theorem roundHalfEven_ge (q : ℚ) : q - 1/2 ≤ (roundHalfEven q : ℚ) := by
  have h1 : ((⌊q⌋ : ℤ) : ℚ) ≤ q := Int.floor_le q
  have h2 : q < (⌊q⌋ : ℚ) + 1 := Int.lt_floor_add_one q
  simp only [roundHalfEven]
  split_ifs <;> push_cast <;> linarith

theorem roundHalfEven_le (q : ℚ) : (roundHalfEven q : ℚ) ≤ q + 1/2 := by
  have h1 : ((⌊q⌋ : ℤ) : ℚ) ≤ q := Int.floor_le q
  have h2 : q < (⌊q⌋ : ℚ) + 1 := Int.lt_floor_add_one q
  simp only [roundHalfEven]
  split_ifs with a b <;> push_cast <;> linarith

theorem pyInt_intCast (z : ℤ) : pyInt (z : ℚ) = z := by
  unfold pyInt
  split_ifs <;> simp

theorem adjustLoop_mem {f : ℚ → ℤ} {c : String} {m : ℤ}
    {ovs : List Override} {subs : List AdjOverride}
    (h : adjustLoop f c m ovs = .ok subs) {s : AdjOverride} (hs : s ∈ subs) :
    ∃ o ∈ ovs, o.price_type = "fixed" ∧ ∃ q, o.price.parse = some q ∧ 0 < q ∧
      s = adjustedRecord f c m o := by
  induction ovs generalizing subs with
  | nil =>
    simp only [adjustLoop] at h
    cases h
    simp at hs
  | cons o rest ih =>
    unfold adjustLoop at h
    by_cases hpt : o.price_type = "fixed"
    · rw [if_pos hpt] at h
      cases hp : o.price.parse with
      | none => simp only [hp] at h; cases h
      | some p =>
        simp only [hp] at h
        by_cases hpos : 0 < p
        · rw [if_pos hpos] at h
          cases hrec : adjustLoop f c m rest with
          | raised e => rw [hrec] at h; cases h
          | ok tail =>
            rw [hrec] at h
            cases h
            rcases List.mem_cons.mp hs with h1 | h1
            · exact ⟨o, List.mem_cons_self .., hpt,
                p, hp, hpos, by simp [h1, adjustedRecord, hp]⟩
            · obtain ⟨o', ho', rest'⟩ := ih hrec h1
              exact ⟨o', List.mem_cons_of_mem _ ho', rest'⟩
        · rw [if_neg hpos] at h
          obtain ⟨o', ho', rest'⟩ := ih h hs
          exact ⟨o', List.mem_cons_of_mem _ ho', rest'⟩
    · rw [if_neg hpt] at h
      obtain ⟨o', ho', rest'⟩ := ih h hs
      exact ⟨o', List.mem_cons_of_mem _ ho', rest'⟩

theorem adjustLoop_ok_of_parses {f : ℚ → ℤ} {c : String} {m : ℤ}
    {ovs : List Override}
    (h : ∀ o ∈ ovs, o.price_type = "fixed" → o.price.parse ≠ none) :
    adjustLoop f c m ovs =
      .ok ((ovs.filter eligibleOverride).map (adjustedRecord f c m)) := by
  induction ovs with
  | nil => simp [adjustLoop]
  | cons o rest ih =>
    have hrest : ∀ o' ∈ rest, o'.price_type = "fixed" → o'.price.parse ≠ none :=
      fun o' ho' => h o' (List.mem_cons_of_mem _ ho')
    unfold adjustLoop
    by_cases hpt : o.price_type = "fixed"
    · rw [if_pos hpt]
      cases hp : o.price.parse with
      | none => exact absurd hp (h o (List.mem_cons_self ..) hpt)
      | some p =>
        simp only [hp]
        by_cases hpos : 0 < p
        · rw [if_pos hpos, ih hrest]
          simp [List.filter_cons, eligibleOverride, hpt, hp, hpos,
            adjustedRecord]
        · rw [if_neg hpos, ih hrest]
          simp [List.filter_cons, eligibleOverride, hpt, hp, hpos]
    · rw [if_neg hpt, ih hrest]
      simp [List.filter_cons, eligibleOverride, hpt]

theorem adjustLoop_raised {f : ℚ → ℤ} {c : String} {m : ℤ}
    {ovs : List Override}
    (h : ∃ o ∈ ovs, o.price_type = "fixed" ∧ o.price.parse = none) :
    adjustLoop f c m ovs = .raised floatError := by
  induction ovs with
  | nil => simp at h
  | cons o rest ih =>
    unfold adjustLoop
    by_cases hpt : o.price_type = "fixed"
    · rw [if_pos hpt]
      cases hp : o.price.parse with
      | none => simp only [hp]
      | some p =>
        simp only [hp]
        have hbad : ∃ o' ∈ rest, o'.price_type = "fixed" ∧ o'.price.parse = none := by
          rcases h with ⟨o', ho', h1, h2⟩
          rcases List.mem_cons.mp ho' with rfl | hm
          · rw [hp] at h2; cases h2
          · exact ⟨o', hm, h1, h2⟩
        by_cases hpos : 0 < p
        · rw [if_pos hpos, ih hbad]
        · rw [if_neg hpos]; exact ih hbad
    · rw [if_neg hpt]
      refine ih ?_
      rcases h with ⟨o', ho', h1, h2⟩
      rcases List.mem_cons.mp ho' with rfl | hm
      · exact absurd h1 hpt
      · exact ⟨o', hm, h1, h2⟩

theorem adjustLoop_ok_parses {f : ℚ → ℤ} {c : String} {m : ℤ}
    {ovs : List Override} {subs : List AdjOverride}
    (h : adjustLoop f c m ovs = .ok subs) :
    ∀ o ∈ ovs, o.price_type = "fixed" → o.price.parse ≠ none := by
  intro o ho hpt hbad
  rw [adjustLoop_raised ⟨o, ho, hpt, hbad⟩] at h
  cases h

theorem processAll_outcomes (t : ℚ → Bool → ℚ)
    (f : Listing → Exc (List Override))
    (s : Listing → List AdjOverride → Exc Unit) (inc dry : Bool)
    (ls : List Listing) :
    (processAll t f s inc dry ls).1
      = ls.filterMap (fun l => (processListing t f s inc dry l).outcome) := by
  induction ls with
  | nil => rfl
  | cons l ls ih =>
    simp only [processAll, ih, List.filterMap_cons]
    cases (processListing t f s inc dry l).outcome <;> simp

theorem processAll_summaries (t : ℚ → Bool → ℚ)
    (f : Listing → Exc (List Override))
    (s : Listing → List AdjOverride → Exc Unit) (inc dry : Bool)
    (ls : List Listing) :
    (processAll t f s inc dry ls).2.1
      = ls.filterMap (fun l => (processListing t f s inc dry l).summary) := by
  induction ls with
  | nil => rfl
  | cons l ls ih =>
    simp only [processAll, ih, List.filterMap_cons]
    cases (processListing t f s inc dry l).summary <;> simp

theorem processAll_writes (t : ℚ → Bool → ℚ)
    (f : Listing → Exc (List Override))
    (s : Listing → List AdjOverride → Exc Unit) (inc dry : Bool)
    (ls : List Listing) :
    (processAll t f s inc dry ls).2.2
      = ls.filterMap (fun l => (processListing t f s inc dry l).write) := by
  induction ls with
  | nil => rfl
  | cons l ls ih =>
    simp only [processAll, ih, List.filterMap_cons]
    cases (processListing t f s inc dry l).write <;> simp

theorem chunkList_cons (b : ℕ) (x : α) (xs : List α) :
    chunkList (b + 1) (x :: xs)
      = ((x :: xs).take (b + 1)) :: chunkList (b + 1) ((x :: xs).drop (b + 1)) := by
  rw [chunkList]
  simp

theorem chunkList_flatten_aux (b : ℕ) :
    ∀ (n : ℕ) (l : List α), l.length ≤ n → (chunkList (b + 1) l).flatten = l := by
  intro n
  induction n with
  | zero =>
    intro l h
    have : l = [] := List.length_eq_zero.mp (Nat.le_zero.mp h)
    subst this
    simp [chunkList]
  | succ n ih =>
    intro l h
    match l with
    | [] => simp [chunkList]
    | x :: xs =>
      rw [chunkList_cons, List.flatten_cons, ih ((x :: xs).drop (b + 1)) ?_,
        List.take_append_drop]
      simp only [List.length_drop, List.length_cons]
      simp only [List.length_cons] at h
      omega

theorem chunkList_flatten {bs : ℕ} (hb : 0 < bs) (l : List α) :
    (chunkList bs l).flatten = l := by
  obtain ⟨b, rfl⟩ : ∃ b, bs = b + 1 := ⟨bs - 1, by omega⟩
  exact chunkList_flatten_aux b l.length l le_rfl

theorem chunkList_length_le_aux (b : ℕ) :
    ∀ (n : ℕ) (l : List α), l.length ≤ n →
      ∀ c ∈ chunkList (b + 1) l, c.length ≤ b + 1 := by
  intro n
  induction n with
  | zero =>
    intro l h
    have : l = [] := List.length_eq_zero.mp (Nat.le_zero.mp h)
    subst this
    simp [chunkList]
  | succ n ih =>
    intro l h c hc
    match l with
    | [] => simp [chunkList] at hc
    | x :: xs =>
      rw [chunkList_cons] at hc
      rcases List.mem_cons.mp hc with rfl | hm
      · simp [List.length_take]
      · refine ih ((x :: xs).drop (b + 1)) ?_ c hm
        simp only [List.length_drop, List.length_cons]
        simp only [List.length_cons] at h
        omega

theorem chunkList_length_le {bs : ℕ} (hb : 0 < bs) (l : List α) :
    ∀ c ∈ chunkList bs l, c.length ≤ bs := by
  obtain ⟨b, rfl⟩ : ∃ b, bs = b + 1 := ⟨bs - 1, by omega⟩
  exact chunkList_length_le_aux b l.length l le_rfl

theorem batchGo_results (t : ℚ → Bool → ℚ)
    (f : Listing → Exc (List Override))
    (s : Listing → List AdjOverride → Exc Unit) (inc dry : Bool)
    (cs : List (List Listing)) :
    (batchGo t f s inc dry cs).results
      = cs.flatten.filterMap (fun l => (processListing t f s inc dry l).outcome) := by
  induction cs with
  | nil => rfl
  | cons c cs ih =>
    simp [batchGo, ih, processAll_outcomes, List.filterMap_append]

theorem batchGo_summaries (t : ℚ → Bool → ℚ)
    (f : Listing → Exc (List Override))
    (s : Listing → List AdjOverride → Exc Unit) (inc dry : Bool)
    (cs : List (List Listing)) :
    (batchGo t f s inc dry cs).dry_run_summary
      = cs.flatten.filterMap (fun l => (processListing t f s inc dry l).summary) := by
  induction cs with
  | nil => rfl
  | cons c cs ih =>
    simp [batchGo, ih, processAll_summaries, List.filterMap_append]

theorem batchGo_writes (t : ℚ → Bool → ℚ)
    (f : Listing → Exc (List Override))
    (s : Listing → List AdjOverride → Exc Unit) (inc dry : Bool)
    (cs : List (List Listing)) :
    (batchGo t f s inc dry cs).writes
      = cs.flatten.filterMap (fun l => (processListing t f s inc dry l).write) := by
  induction cs with
  | nil => rfl
  | cons c cs ih =>
    simp [batchGo, ih, processAll_writes, List.filterMap_append]

theorem batchGo_sleeps (t : ℚ → Bool → ℚ)
    (f : Listing → Exc (List Override))
    (s : Listing → List AdjOverride → Exc Unit) (inc dry : Bool)
    (cs : List (List Listing)) :
    (batchGo t f s inc dry cs).sleeps = cs.length - 1 := by
  induction cs with
  | nil => rfl
  | cons c cs ih =>
    simp only [batchGo, ih]
    cases cs with
    | nil => simp
    | cons c2 cs2 => simp; omega

theorem batch_update_results (t : ℚ → Bool → ℚ)
    (f : Listing → Exc (List Override))
    (s : Listing → List AdjOverride → Exc Unit) (inc dry : Bool)
    {bs : ℕ} (hb : 0 < bs) (ls : List Listing) :
    (batch_update t f s inc dry bs ls).results
      = ls.filterMap (fun l => (processListing t f s inc dry l).outcome) := by
  rw [batch_update, batchGo_results, chunkList_flatten hb]

theorem batch_update_writes (t : ℚ → Bool → ℚ)
    (f : Listing → Exc (List Override))
    (s : Listing → List AdjOverride → Exc Unit) (inc dry : Bool)
    {bs : ℕ} (hb : 0 < bs) (ls : List Listing) :
    (batch_update t f s inc dry bs ls).writes
      = ls.filterMap (fun l => (processListing t f s inc dry l).write) := by
  rw [batch_update, batchGo_writes, chunkList_flatten hb]

theorem calculate_adjusted_price_true (percent price : ℚ) :
    calculate_adjusted_price percent price true
      = roundHalfEven (price * (1 + percent / 100)) := by
  have h : price * (1 + percent / 100 * 1) = price * (1 + percent / 100) := by ring
  simp only [calculate_adjusted_price, if_pos, h]

theorem calculate_adjusted_price_false (percent price : ℚ) :
    calculate_adjusted_price percent price false
      = roundHalfEven (price * (1 - percent / 100)) := by
  have h : price * (1 + percent / 100 * (-1)) = price * (1 - percent / 100) := by
    ring
  simp only [calculate_adjusted_price, Bool.false_eq_true, if_neg,
    not_false_iff, h]

/-- Claim C5, counterexample.  The claim asserts strict movement for every
positive price and percent: `adjust(p, true, k) > p` and
`adjust(p, false, k) < p` whenever `p > 0` and `k > 0`.  At `p = 1`,
`k = 5` the transform rounds `1.05` down to `1` and `0.95` up to `1`, so
neither strict inequality holds. -/
theorem C5_counterexample :
    ¬ (1 < ((calculate_adjusted_price 5 1 true : ℤ) : ℚ)
        ∧ ((calculate_adjusted_price 5 1 false : ℤ) : ℚ) < 1) := by
  have h1 : calculate_adjusted_price 5 1 true = 1 := by
    rw [calculate_adjusted_price_true]
    norm_num [roundHalfEven]
  have h2 : calculate_adjusted_price 5 1 false = 1 := by
    rw [calculate_adjusted_price_false]
    norm_num [roundHalfEven]
  rw [h1, h2]
  norm_num

/-- Claim C5, amended.  The price transform moves strictly in the requested
direction whenever the adjustment amount exceeds half a rounding unit,
i.e. whenever `p * k > 50`: then `adjust(p, true, k) > p` and
`adjust(p, false, k) < p`. -/
theorem C5_amended (p k : ℚ) (hp : 0 < p) (hk : 0 < k) (hpk : 50 < p * k) :
    p < ((calculate_adjusted_price k p true : ℤ) : ℚ)
    ∧ ((calculate_adjusted_price k p false : ℤ) : ℚ) < p := by
  constructor
  · rw [calculate_adjusted_price_true]
    have hb := roundHalfEven_ge (p * (1 + k / 100))
    have hx : p * (1 + k / 100) = p + p * k / 100 := by ring
    rw [hx]
    rw [hx] at hb
    linarith
  · rw [calculate_adjusted_price_false]
    have hb := roundHalfEven_le (p * (1 - k / 100))
    have hx : p * (1 - k / 100) = p - p * k / 100 := by ring
    rw [hx]
    rw [hx] at hb
    linarith

/-- Witness for C5_amended at `p = 100`, `k = 5`: the hypotheses hold and
`105 = adjust(100, true, 5) > 100 > 95 = adjust(100, false, 5)`. -/
theorem C5_amended_witness :
    (0 : ℚ) < 100 ∧ (0 : ℚ) < 5 ∧ (50 : ℚ) < 100 * 5
    ∧ (100 < ((calculate_adjusted_price 5 100 true : ℤ) : ℚ)
        ∧ ((calculate_adjusted_price 5 100 false : ℤ) : ℚ) < 100) :=
  ⟨by norm_num, by norm_num, by norm_num,
   C5_amended 100 5 (by norm_num) (by norm_num) (by norm_num)⟩

/-- Claim C6, counterexample.  The claim asserts the increase/decrease
round-trip stays within one rounding unit of `p` for every positive price
and percent.  At `p = 1000`, `k = 5`: up gives `1050`, down gives
`round(997.5) = 998` (half to even), so the round-trip error is `2`. -/
theorem C6_counterexample :
    ¬ (|((calculate_adjusted_price 5
            ((calculate_adjusted_price 5 1000 true : ℤ) : ℚ) false : ℤ) : ℚ)
          - 1000| ≤ 1) := by
  have h1 : calculate_adjusted_price 5 1000 true = 1050 := by
    rw [calculate_adjusted_price_true]
    norm_num [roundHalfEven]
  have h2 : calculate_adjusted_price 5 (1050 : ℚ) false = 998 := by
    rw [calculate_adjusted_price_false]
    norm_num [roundHalfEven]
  rw [h1]
  push_cast
  rw [h2]
  norm_num

/-- Claim C6, amended.  For `0 < p` and `0 ≤ k ≤ 100` the increase/decrease
round-trip lands within `p * k^2 / 10000 + 1` of `p`: the inherent
quadratic drift of applying `±k%` multiplicatively, plus at most one
rounding unit (half a unit per rounding step). -/
theorem C6_amended (p k : ℚ) (hp : 0 < p) (hk0 : 0 ≤ k) (hk : k ≤ 100) :
    |((calculate_adjusted_price k
        ((calculate_adjusted_price k p true : ℤ) : ℚ) false : ℤ) : ℚ) - p|
      ≤ p * k ^ 2 / 10000 + 1 := by
  rw [calculate_adjusted_price_true, calculate_adjusted_price_false]
  have hc0 : (0 : ℚ) ≤ 1 - k / 100 := by linarith
  have hc1 : 1 - k / 100 ≤ 1 := by linarith
  have hb1 := roundHalfEven_ge (p * (1 + k / 100))
  have hb2 := roundHalfEven_le (p * (1 + k / 100))
  have e1 := mul_le_mul_of_nonneg_right hb1 hc0
  have e2 := mul_le_mul_of_nonneg_right hb2 hc0
  have exp1 : (p * (1 + k / 100) - 1/2) * (1 - k / 100)
      = (p - p * k ^ 2 / 10000) - (1 - k / 100) / 2 := by ring
  have exp2 : (p * (1 + k / 100) + 1/2) * (1 - k / 100)
      = (p - p * k ^ 2 / 10000) + (1 - k / 100) / 2 := by ring
  rw [exp1] at e1
  rw [exp2] at e2
  have hd1 := roundHalfEven_ge
    (((roundHalfEven (p * (1 + k / 100)) : ℤ) : ℚ) * (1 - k / 100))
  have hd2 := roundHalfEven_le
    (((roundHalfEven (p * (1 + k / 100)) : ℤ) : ℚ) * (1 - k / 100))
  rw [abs_le]
  constructor <;> nlinarith [hp.le, sq_nonneg k]

/-- Witness for C6_amended at `p = 100`, `k = 5`: the round-trip gives
`round(105 * 0.95) = round(99.75) = 100`, within `100·25/10000 + 1`. -/
theorem C6_amended_witness :
    (0 : ℚ) < 100 ∧ (0 : ℚ) ≤ 5 ∧ (5 : ℚ) ≤ 100
    ∧ |((calculate_adjusted_price 5
          ((calculate_adjusted_price 5 100 true : ℤ) : ℚ) false : ℤ) : ℚ) - 100|
        ≤ 100 * 5 ^ 2 / 10000 + 1 :=
  ⟨by norm_num, by norm_num, by norm_num,
   C6_amended 100 5 (by norm_num) (by norm_num) (by norm_num)⟩

/-- Claim C3, counterexample.  The claim asserts the override filter retains
only dates `d` with `today < d ≤ today + 365`, so an override dated
exactly today and one dated today + 366 must be excluded.  Taking "today"
as day 20000: overrides dated 20000 (today), 20365 (today + 365) and
20366 (today + 366), all fixed-type with price 100, are *all three*
retained by the filter the code implements — no date check exists in it. -/
theorem C3_counterexample :
    computeAdjusted webTransform true
        [⟨20000, .num 100, "fixed", some "USD", some 2⟩,
         ⟨20365, .num 100, "fixed", some "USD", some 2⟩,
         ⟨20366, .num 100, "fixed", some "USD", some 2⟩]
      = .ok [⟨20000, 105, "fixed", "USD", 2⟩,
             ⟨20365, 105, "fixed", "USD", 2⟩,
             ⟨20366, 105, "fixed", "USD", 2⟩] := by
  norm_num [computeAdjusted, adjustLoop, PriceStr.parse, webTransform, pyInt,
    calculate_adjusted_price, roundHalfEven, ADJUSTMENT_PERCENTAGE, Int.fract]

/-- Claim C3, amended.  The override filter applies no date constraint at
all: whenever the adjusted computation succeeds, the dates of the
submitted records are exactly the dates of the fixed-type,
positively-priced retrieved overrides, regardless of how they relate to
today — in particular overrides dated today, today + 365 and today + 366
are all retained (subject only to the type and price checks). -/
theorem C3_amended {f : ℚ → ℤ} {c : String} {m : ℤ}
    {ovs : List Override} {subs : List AdjOverride}
    (h : adjustLoop f c m ovs = .ok subs) :
    subs.map AdjOverride.date = (ovs.filter eligibleOverride).map Override.date := by
  have hp := adjustLoop_ok_parses h
  rw [adjustLoop_ok_of_parses hp] at h
  cases h
  rw [List.map_map]
  rfl

/-- Witness for C3_amended on the three-override input of the
counterexample: the submitted dates are exactly the three input dates. -/
theorem C3_amended_witness :
    adjustLoop (fun p => pyInt (webTransform p true)) "USD" 1
        [⟨20000, .num 100, "fixed", some "USD", some 2⟩,
         ⟨20365, .num 100, "fixed", some "USD", some 2⟩,
         ⟨20366, .num 100, "fixed", some "USD", some 2⟩]
      = .ok [⟨20000, 105, "fixed", "USD", 2⟩,
             ⟨20365, 105, "fixed", "USD", 2⟩,
             ⟨20366, 105, "fixed", "USD", 2⟩]
    ∧ ([⟨20000, 105, "fixed", "USD", 2⟩,
        ⟨20365, 105, "fixed", "USD", 2⟩,
        (⟨20366, 105, "fixed", "USD", 2⟩ : AdjOverride)].map AdjOverride.date
      = ([⟨20000, .num 100, "fixed", some "USD", some 2⟩,
          ⟨20365, .num 100, "fixed", some "USD", some 2⟩,
          (⟨20366, .num 100, "fixed", some "USD", some 2⟩ : Override)].filter
            eligibleOverride).map Override.date) := by
  have h : adjustLoop (fun p => pyInt (webTransform p true)) "USD" 1
      [⟨20000, .num 100, "fixed", some "USD", some 2⟩,
       ⟨20365, .num 100, "fixed", some "USD", some 2⟩,
       ⟨20366, .num 100, "fixed", some "USD", some 2⟩]
      = .ok [⟨20000, 105, "fixed", "USD", 2⟩,
             ⟨20365, 105, "fixed", "USD", 2⟩,
             ⟨20366, 105, "fixed", "USD", 2⟩] := by
    norm_num [adjustLoop, PriceStr.parse, webTransform, pyInt,
      calculate_adjusted_price, roundHalfEven, ADJUSTMENT_PERCENTAGE, Int.fract]
  exact ⟨h, C3_amended h⟩

/-- Claim C4, counterexample.  The claim asserts unparsable prices are
"skipped silently rather than reported as individual errors".  In the
dashboard pipeline a listing with a single fixed-type override whose price
`float()` cannot parse produces an *error Outcome* for the listing (the
`ValueError` escapes the override loop and is caught by the per-listing
handler) — it is not skipped silently. -/
theorem C4_counterexample :
    (batch_update st_calculate_adjusted_price
        (fun _ => .ok [⟨20100, .bad, "fixed", none, none⟩])
        (fun _ _ => .ok ()) true false 20
        [⟨"1", "A", none, some false, some true, none, none⟩]).results
      = [⟨"1", "A", .error, some floatError⟩] := by
  norm_num [batch_update, chunkList, batchGo, processAll, processListing,
    computeAdjusted, adjustLoop, PriceStr.parse]

/-- Claim C4, amended.  When every fixed-type price parses, the submitted
batch is exactly the image of the overrides that are fixed-type with
strictly positive parsed price — percentage-type overrides and
non-positive parsed prices are skipped silently, never submitted and never
reported.  When some fixed-type price does not parse, however, the loop
raises instead of skipping: the dashboard and web pipelines convert this
into a listing-level error Outcome, and the console pipeline's per-override
handler re-raises it while building the log row, aborting the run. -/
theorem C4_amended (f : ℚ → ℤ) (c : String) (m : ℤ) (ovs : List Override) :
    ((∀ o ∈ ovs, o.price_type = "fixed" → o.price.parse ≠ none) →
      adjustLoop f c m ovs
        = .ok ((ovs.filter eligibleOverride).map (adjustedRecord f c m)))
    ∧ ((∃ o ∈ ovs, o.price_type = "fixed" ∧ o.price.parse = none) →
      adjustLoop f c m ovs = .raised floatError) :=
  ⟨fun h => adjustLoop_ok_of_parses h, fun h => adjustLoop_raised h⟩

/-- Witness for C4_amended: a percentage-type override and a fixed-type
override with non-positive price are dropped silently while the positive
fixed-type one is submitted. -/
theorem C4_amended_witness :
    (∀ o ∈ [⟨20100, .num 10, "percent", some "USD", some 2⟩,
            ⟨20101, .num 0, "fixed", some "USD", some 2⟩,
            (⟨20102, .num 100, "fixed", some "USD", some 2⟩ : Override)],
        o.price_type = "fixed" → o.price.parse ≠ none)
    ∧ adjustLoop (fun _ => 105) "USD" 1
        [⟨20100, .num 10, "percent", some "USD", some 2⟩,
         ⟨20101, .num 0, "fixed", some "USD", some 2⟩,
         ⟨20102, .num 100, "fixed", some "USD", some 2⟩]
      = .ok (([⟨20100, .num 10, "percent", some "USD", some 2⟩,
               ⟨20101, .num 0, "fixed", some "USD", some 2⟩,
               (⟨20102, .num 100, "fixed", some "USD", some 2⟩ : Override)].filter
                 eligibleOverride).map (adjustedRecord (fun _ => 105) "USD" 1)) := by
  constructor
  · intro o ho
    fin_cases ho <;> simp [PriceStr.parse]
  · exact (C4_amended (fun _ => 105) "USD" 1 _).1 (by
      intro o ho
      fin_cases ho <;> simp [PriceStr.parse])

theorem processListing_write_eq {t : ℚ → Bool → ℚ}
    {fetch : Listing → Exc (List Override)}
    {submit : Listing → List AdjOverride → Exc Unit} {inc : Bool} {l : Listing}
    {ovs : List Override} {adj : List AdjOverride} {w : Write}
    (hf : fetch l = .ok ovs) (ha : computeAdjusted t inc ovs = .ok adj)
    (hw : (processListing t fetch submit inc false l).write = some w) :
    w = ⟨l.id, l.pms, adj⟩ := by
  simp only [processListing, hf, ha, Bool.false_eq_true, if_false] at hw
  by_cases he : adj.isEmpty
  · simp [he] at hw
  · simp only [he, if_false] at hw
    cases hs : submit l adj with
    | ok u => rw [hs] at hw; cases hw; rfl
    | raised e => rw [hs] at hw; cases hw; rfl

theorem processListing_write_raised {t : ℚ → Bool → ℚ}
    {fetch : Listing → Exc (List Override)}
    {submit : Listing → List AdjOverride → Exc Unit} {inc dry : Bool}
    {l : Listing} {ovs : List Override} {e : String}
    (hf : fetch l = .ok ovs) (ha : computeAdjusted t inc ovs = .raised e) :
    (processListing t fetch submit inc dry l).write = none := by
  simp only [processListing, hf, ha]
  cases dry <;> simp

/-- Claim C1.  For every listing processed in an apply-mode run of the web
pipeline, each override submitted in that listing's write call derives
from one of the overrides retrieved for the same listing: it keeps the
retrieved date, currency and minimum stay (assuming those keys are present
on the retrieved records), its price is the price transform's output on
the retrieved parsed price, and its price type is the absolute-amount
`"fixed"` type; no submitted override lacks a retrieved counterpart. -/
theorem C1_submitted_subset
    (fetch : Listing → Exc (List Override))
    (submit : Listing → List AdjOverride → Exc Unit) (inc : Bool) (l : Listing)
    {ovs : List Override} {w : Write}
    (hf : fetch l = .ok ovs)
    (hfields : ∀ o ∈ ovs, o.currency.isSome ∧ o.min_stay.isSome)
    (hw : (processListing webTransform fetch submit inc false l).write = some w) :
    w.listing_id = l.id ∧
    ∀ s ∈ w.overrides, ∃ o ∈ ovs,
      o.price_type = "fixed" ∧ s.price_type = "fixed" ∧ s.date = o.date ∧
      o.currency = some s.currency ∧ o.min_stay = some s.min_stay ∧
      ∃ q, o.price.parse = some q ∧ 0 < q ∧
        s.price = calculate_adjusted_price ADJUSTMENT_PERCENTAGE q inc := by
  cases hca : computeAdjusted webTransform inc ovs with
  | raised e => rw [processListing_write_raised hf hca] at hw; cases hw
  | ok adj =>
    cases processListing_write_eq hf hca hw
    refine ⟨rfl, ?_⟩
    intro s hs
    obtain ⟨o, ho, hpt, q, hq, hqpos, hrec⟩ := adjustLoop_mem hca hs
    obtain ⟨hc, hm⟩ := hfields o ho
    obtain ⟨cv, hcv⟩ := Option.isSome_iff_exists.mp hc
    obtain ⟨mv, hmv⟩ := Option.isSome_iff_exists.mp hm
    subst hrec
    refine ⟨o, ho, hpt, rfl, rfl, ?_, ?_, q, hq, hqpos, ?_⟩
    · simp [adjustedRecord, hcv]
    · simp [adjustedRecord, hmv]
    · simp only [adjustedRecord, webTransform, hq, Option.getD_some]
      exact pyInt_intCast _

/-- Witness for C1: one listing, one retrieved fixed override priced 100;
the single write submits exactly its adjusted image. -/
theorem C1_submitted_subset_witness :
    (∀ o ∈ [(⟨20100, .num 100, "fixed", some "EUR", some 3⟩ : Override)],
        o.currency.isSome ∧ o.min_stay.isSome)
    ∧ ((processListing webTransform
          (fun _ => .ok [⟨20100, .num 100, "fixed", some "EUR", some 3⟩])
          (fun _ _ => .ok ()) true false
          ⟨"1", "A", none, some false, some true, none, none⟩).write
        = some ⟨"1", none, [⟨20100, 105, "fixed", "EUR", 3⟩]⟩)
    ∧ ((⟨"1", none, [⟨20100, 105, "fixed", "EUR", 3⟩]⟩ : Write).listing_id = "1"
        ∧ ∀ s ∈ (⟨"1", none, [⟨20100, 105, "fixed", "EUR", 3⟩]⟩ : Write).overrides,
            ∃ o ∈ [(⟨20100, .num 100, "fixed", some "EUR", some 3⟩ : Override)],
              o.price_type = "fixed" ∧ s.price_type = "fixed" ∧ s.date = o.date ∧
              o.currency = some s.currency ∧ o.min_stay = some s.min_stay ∧
              ∃ q, o.price.parse = some q ∧ 0 < q ∧
                s.price = calculate_adjusted_price ADJUSTMENT_PERCENTAGE q true) := by
  have hw : (processListing webTransform
      (fun _ => .ok [⟨20100, .num 100, "fixed", some "EUR", some 3⟩])
      (fun _ _ => .ok ()) true false
      ⟨"1", "A", none, some false, some true, none, none⟩).write
      = some ⟨"1", none, [⟨20100, 105, "fixed", "EUR", 3⟩]⟩ := by
    norm_num [processListing, computeAdjusted, adjustLoop, PriceStr.parse,
      webTransform, pyInt, calculate_adjusted_price, roundHalfEven,
      ADJUSTMENT_PERCENTAGE, Int.fract]
  refine ⟨by intro o ho; fin_cases ho; simp, hw, ?_⟩
  exact C1_submitted_subset _ _ true
    ⟨"1", "A", none, some false, some true, none, none⟩
    rfl (by intro o ho; fin_cases ho; simp) hw

theorem processListing_submit_ok {t : ℚ → Bool → ℚ}
    {fetch : Listing → Exc (List Override)}
    {submit : Listing → List AdjOverride → Exc Unit} {inc : Bool} {l : Listing}
    {ovs : List Override} {adj : List AdjOverride}
    (hf : fetch l = .ok ovs) (ha : computeAdjusted t inc ovs = .ok adj)
    (hne : adj ≠ []) (hs : submit l adj = .ok ()) :
    processListing t fetch submit inc false l
      = ⟨some ⟨l.id, l.name, .success, none⟩, none, some ⟨l.id, l.pms, adj⟩⟩ := by
  cases adj with
  | nil => exact absurd rfl hne
  | cons a as =>
    simp only [processListing, hf, ha, hs, Bool.false_eq_true, if_false,
      List.isEmpty_cons]

theorem processListing_submit_raised {t : ℚ → Bool → ℚ}
    {fetch : Listing → Exc (List Override)}
    {submit : Listing → List AdjOverride → Exc Unit} {inc : Bool} {l : Listing}
    {ovs : List Override} {adj : List AdjOverride} {e : String}
    (hf : fetch l = .ok ovs) (ha : computeAdjusted t inc ovs = .ok adj)
    (hne : adj ≠ []) (hs : submit l adj = .raised e) :
    processListing t fetch submit inc false l
      = ⟨some ⟨l.id, l.name, .error, some e⟩, none, some ⟨l.id, l.pms, adj⟩⟩ := by
  cases adj with
  | nil => exact absurd rfl hne
  | cons a as =>
    simp only [processListing, hf, ha, hs, Bool.false_eq_true, if_false,
      List.isEmpty_cons]

/-- Claim C8, counterexample.  The claim asserts that a listing whose
retrieved overrides leave an empty eligible set yields a zero-change
*success Outcome* that still appears in the final report.  In apply mode
the code only appends an outcome inside `if adjusted_overrides:`, so a
listing whose single override is percentage-type contributes *nothing*:
the run ends with an empty results list (and, correctly, no write). -/
theorem C8_counterexample :
    batch_update st_calculate_adjusted_price
        (fun _ => .ok [⟨20100, .num 10, "percent", some "USD", some 2⟩])
        (fun _ _ => .ok ()) true false 20
        [⟨"1", "A", none, some false, some true, none, none⟩]
      = ⟨[], [], [], 0⟩ := by
  simp +decide [batch_update, chunkList, batchGo, processAll, processListing,
    computeAdjusted, adjustLoop, PriceStr.parse]

/-- Claim C8, amended.  For a listing whose eligible set is empty: no write
call is made in either mode; in dry-run mode the listing appears in the
preview summary with zero changes and no error; in apply mode the listing
contributes no Outcome at all and is therefore absent from the final
report. -/
theorem C8_amended (t : ℚ → Bool → ℚ)
    (fetch : Listing → Exc (List Override))
    (submit : Listing → List AdjOverride → Exc Unit) (inc : Bool) (l : Listing)
    {ovs : List Override}
    (hf : fetch l = .ok ovs) (hemp : computeAdjusted t inc ovs = .ok []) :
    processListing t fetch submit inc false l = ⟨none, none, none⟩
    ∧ processListing t fetch submit inc true l
        = ⟨none, some ⟨l.id, l.name, 0, previewChanges t inc ovs, none⟩, none⟩ := by
  constructor
  · simp only [processListing, hf, hemp, Bool.false_eq_true, if_false,
      List.isEmpty_nil, if_true]
  · simp only [processListing, hf, hemp, if_true, List.length_nil]

/-- Witness for C8_amended: a listing whose only override is
percentage-type. -/
theorem C8_amended_witness :
    computeAdjusted st_calculate_adjusted_price true
        [⟨20100, .num 10, "percent", some "USD", some 2⟩] = .ok []
    ∧ (processListing st_calculate_adjusted_price
          (fun _ => .ok [⟨20100, .num 10, "percent", some "USD", some 2⟩])
          (fun _ _ => .ok ()) true false
          ⟨"1", "A", none, some false, some true, none, none⟩
        = ⟨none, none, none⟩
      ∧ processListing st_calculate_adjusted_price
          (fun _ => .ok [⟨20100, .num 10, "percent", some "USD", some 2⟩])
          (fun _ _ => .ok ()) true true
          ⟨"1", "A", none, some false, some true, none, none⟩
        = ⟨none,
           some ⟨"1", "A", 0,
             previewChanges st_calculate_adjusted_price true
               [⟨20100, .num 10, "percent", some "USD", some 2⟩], none⟩,
           none⟩) := by
  have hca : computeAdjusted st_calculate_adjusted_price true
      [⟨20100, .num 10, "percent", some "USD", some 2⟩] = .ok [] := by
    simp [computeAdjusted, adjustLoop]
  exact ⟨hca,
    C8_amended st_calculate_adjusted_price
      (fun _ => .ok [⟨20100, .num 10, "percent", some "USD", some 2⟩])
      (fun _ _ => .ok ()) true
      ⟨"1", "A", none, some false, some true, none, none⟩ rfl hca⟩

/-- Claim C2.  Per-listing failure isolation in the batch runner: in apply
mode the aggregated results are exactly the in-order concatenation of each
listing's own outcome (one listing's failure cannot abort or affect the
others), and for a batch of three listings — each with a non-empty
eligible set — where exactly the middle submit call fails, the final
report holds exactly one error Outcome and two success Outcomes, in the
original input order. -/
theorem C2_failure_isolation (t : ℚ → Bool → ℚ)
    (fetch : Listing → Exc (List Override))
    (submit : Listing → List AdjOverride → Exc Unit) (inc : Bool)
    {bs : ℕ} (hbs : 0 < bs) (l1 l2 l3 : Listing)
    {ov1 ov2 ov3 : List Override} {a1 a2 a3 : List AdjOverride} {e : String}
    (hf1 : fetch l1 = .ok ov1) (ha1 : computeAdjusted t inc ov1 = .ok a1)
    (hne1 : a1 ≠ []) (hs1 : submit l1 a1 = .ok ())
    (hf2 : fetch l2 = .ok ov2) (ha2 : computeAdjusted t inc ov2 = .ok a2)
    (hne2 : a2 ≠ []) (hs2 : submit l2 a2 = .raised e)
    (hf3 : fetch l3 = .ok ov3) (ha3 : computeAdjusted t inc ov3 = .ok a3)
    (hne3 : a3 ≠ []) (hs3 : submit l3 a3 = .ok ()) :
    (batch_update t fetch submit inc false bs [l1, l2, l3]).results
      = [⟨l1.id, l1.name, .success, none⟩, ⟨l2.id, l2.name, .error, some e⟩,
         ⟨l3.id, l3.name, .success, none⟩]
    ∧ ∀ ls : List Listing,
        (batch_update t fetch submit inc false bs ls).results
          = ls.filterMap
              (fun l => (processListing t fetch submit inc false l).outcome) := by
  refine ⟨?_, fun ls => batch_update_results t fetch submit inc false hbs ls⟩
  rw [batch_update_results t fetch submit inc false hbs]
  rw [List.filterMap_cons, List.filterMap_cons, List.filterMap_cons,
    processListing_submit_ok hf1 ha1 hne1 hs1,
    processListing_submit_raised hf2 ha2 hne2 hs2,
    processListing_submit_ok hf3 ha3 hne3 hs3]
  rfl

/-- Witness for C2: three listings sharing one fixed override priced 100;
the submit oracle fails exactly for listing `"2"`. -/
theorem C2_failure_isolation_witness :
    ((fun l : Listing => if l.id = "2" then Exc.raised "boom"
        else (Exc.ok () : Exc Unit))
      ⟨"2", "B", none, some false, some true, none, none⟩ = Exc.raised "boom")
    ∧ (batch_update st_calculate_adjusted_price
          (fun _ => .ok [⟨20100, .num 100, "fixed", some "USD", some 2⟩])
          (fun l _ => if l.id = "2" then .raised "boom" else .ok ())
          true false 20
          [⟨"1", "A", none, some false, some true, none, none⟩,
           ⟨"2", "B", none, some false, some true, none, none⟩,
           ⟨"3", "C", none, some false, some true, none, none⟩]).results
        = [⟨"1", "A", .success, none⟩, ⟨"2", "B", .error, some "boom"⟩,
           ⟨"3", "C", .success, none⟩] := by
  have hca : computeAdjusted st_calculate_adjusted_price true
      [⟨20100, .num 100, "fixed", some "USD", some 2⟩]
      = .ok [⟨20100, 105, "fixed", "USD", 2⟩] := by
    norm_num [computeAdjusted, adjustLoop, PriceStr.parse,
      st_calculate_adjusted_price, pyInt, ADJUSTMENT_PERCENTAGE, Int.fract]
  refine ⟨by norm_num, ?_⟩
  exact (C2_failure_isolation st_calculate_adjusted_price
    (fun _ => .ok [⟨20100, .num 100, "fixed", some "USD", some 2⟩])
    (fun l _ => if l.id = "2" then .raised "boom" else .ok ())
    true (by norm_num)
    ⟨"1", "A", none, some false, some true, none, none⟩
    ⟨"2", "B", none, some false, some true, none, none⟩
    ⟨"3", "C", none, some false, some true, none, none⟩
    rfl hca (by simp) (by decide)
    rfl hca (by simp) (by decide)
    rfl hca (by simp) (by decide)).1

theorem chunkList_len25 {α : Type} {ls : List α} (h25 : ls.length = 25) :
    chunkList 20 ls = [ls.take 20, ls.drop 20] := by
  have hld : (ls.drop 20).length = 5 := by rw [List.length_drop, h25]
  cases ls with
  | nil => simp at h25
  | cons x xs =>
    rw [chunkList_cons 19 x xs]
    have hstep : (x :: xs).drop 20 = xs.drop 19 := rfl
    rw [hstep] at hld ⊢
    cases hd : xs.drop 19 with
    | nil => rw [hd] at hld; simp at hld
    | cons y ys =>
      rw [hd] at hld
      rw [chunkList_cons 19 y ys]
      have hys : (y :: ys).drop 20 = [] := by
        apply List.drop_eq_nil_of_le
        omega
      have hty : (y :: ys).take 20 = y :: ys := by
        apply List.take_of_length_le
        omega
      rw [hys, hty]
      simp [chunkList]

/-- Claim C7.  The batch runner partitions the input into consecutive groups
of at most `batch_size` listings preserving input order (the concatenation
of the groups is the input), and the inter-batch delay runs exactly once
between consecutive groups — `groups − 1` times in total, hence never
after the last group; in particular 25 listings with `batch_size = 20`
yield exactly two sub-batches of 20 and 5 listings and exactly one delay
invocation. -/
theorem C7_batching (t : ℚ → Bool → ℚ)
    (fetch : Listing → Exc (List Override))
    (submit : Listing → List AdjOverride → Exc Unit) (inc dry : Bool)
    {bs : ℕ} (hbs : 0 < bs) (ls : List Listing) :
    (chunkList bs ls).flatten = ls
    ∧ (∀ c ∈ chunkList bs ls, c.length ≤ bs)
    ∧ (batch_update t fetch submit inc dry bs ls).sleeps
        = (chunkList bs ls).length - 1
    ∧ (bs = 20 → ls.length = 25 →
        (chunkList bs ls).map List.length = [20, 5]
        ∧ (batch_update t fetch submit inc dry bs ls).sleeps = 1) := by
  refine ⟨chunkList_flatten hbs ls, chunkList_length_le hbs ls,
    batchGo_sleeps t fetch submit inc dry (chunkList bs ls), ?_⟩
  rintro rfl h25
  rw [chunkList_len25 h25, batch_update, batchGo_sleeps, chunkList_len25 h25]
  constructor
  · simp [List.length_take, List.length_drop, h25]
  · rfl

/-- Witness for C7 at `batch_size = 20` on a concrete 25-listing input. -/
theorem C7_batching_witness :
    0 < 20
    ∧ ((chunkList 20 (List.replicate 25
          (⟨"1", "A", none, some false, some true, none, none⟩ : Listing))).flatten
        = List.replicate 25
            (⟨"1", "A", none, some false, some true, none, none⟩ : Listing)
      ∧ (∀ c ∈ chunkList 20 (List.replicate 25
            (⟨"1", "A", none, some false, some true, none, none⟩ : Listing)),
          c.length ≤ 20)
      ∧ (batch_update st_calculate_adjusted_price (fun _ => .ok [])
          (fun _ _ => .ok ()) true false 20
          (List.replicate 25
            (⟨"1", "A", none, some false, some true, none, none⟩ : Listing))).sleeps
          = (chunkList 20 (List.replicate 25
              (⟨"1", "A", none, some false, some true, none, none⟩ : Listing))).length - 1
      ∧ (20 = 20 → (List.replicate 25
            (⟨"1", "A", none, some false, some true, none, none⟩ : Listing)).length = 25 →
          (chunkList 20 (List.replicate 25
            (⟨"1", "A", none, some false, some true, none, none⟩ : Listing))).map
              List.length = [20, 5]
          ∧ (batch_update st_calculate_adjusted_price (fun _ => .ok [])
              (fun _ _ => .ok ()) true false 20
              (List.replicate 25
                (⟨"1", "A", none, some false, some true, none, none⟩ : Listing))).sleeps
              = 1)) :=
  ⟨by norm_num,
   C7_batching st_calculate_adjusted_price (fun _ => .ok []) (fun _ _ => .ok ())
     true false (by norm_num) _⟩

theorem processListing_dry (t : ℚ → Bool → ℚ)
    (fetch : Listing → Exc (List Override))
    (submit : Listing → List AdjOverride → Exc Unit) (inc : Bool) (l : Listing) :
    (processListing t fetch submit inc true l).write = none
    ∧ (processListing t fetch submit inc true l).outcome = none := by
  cases hfe : fetch l with
  | raised e => simp [processListing, hfe]
  | ok ovs =>
    cases hca : computeAdjusted t inc ovs with
    | raised e => simp [processListing, hfe, hca]
    | ok adj => simp [processListing, hfe, hca]

/-- Claim C10.  Dry-run mode performs no outbound write call at all, for
every input list of listings, every direction and every oracle behaviour:
the batch runner's write log is empty (and its apply-mode results list
stays empty — only the preview summary is produced), and likewise the web
endpoint in dry-run mode makes no write. -/
theorem C10_dry_run_frame (t : ℚ → Bool → ℚ)
    (fetch : Listing → Exc (List Override))
    (submit : Listing → List AdjOverride → Exc Unit) (inc : Bool)
    (bs : ℕ) (ls : List Listing)
    (fetchL : Exc (List Listing)) (inc2 : Bool) (ids : List String) :
    (batch_update t fetch submit inc true bs ls).writes = []
    ∧ (batch_update t fetch submit inc true bs ls).results = []
    ∧ (update_prices fetchL fetch submit inc2 true ids).writes = [] := by
  refine ⟨?_, ?_, ?_⟩
  · rw [batch_update, batchGo_writes]
    simp only [List.filterMap_eq_nil_iff]
    intro l _
    exact (processListing_dry t fetch submit inc l).1
  · rw [batch_update, batchGo_results]
    simp only [List.filterMap_eq_nil_iff]
    intro l _
    exact (processListing_dry t fetch submit inc l).2
  · cases fetchL with
    | raised e => rfl
    | ok listings =>
      simp only [update_prices, processAll_writes, List.filterMap_eq_nil_iff]
      intro l _
      exact (processListing_dry webTransform fetch submit inc2 l).1

/-- Claim C9, counterexample.  The claim asserts that when the supplied ids
match no fetched listing, the run reports a single aggregate "no listings
found" error.  The web endpoint does no such thing: with `ids = ["42"]`
and one active fetched listing of id `"7"`, it answers a *success*
response with an empty results list — no aggregate error — while indeed
making zero submissions. -/
theorem C9_counterexample :
    update_prices (.ok [⟨"7", "A", none, some false, some true, none, none⟩])
        (fun _ => .ok []) (fun _ _ => .ok ()) true false ["42"]
      = ⟨.okResults [], []⟩ := by
  norm_num [update_prices, activeFilter, listTruthy, processAll]

/-- Claim C9, amended.  When ids are supplied and match no fetched listing,
both pipelines end with zero override submissions; the console run
additionally logs exactly one aggregate "no listings found" error row and
stops, while the web endpoint reports no error at all, answering success
with an empty results list. -/
theorem C9_amended (inc dry inc2 : Bool) (ids : List String)
    (Ls : List Listing)
    (fetchOv : Listing → Exc (List Override))
    (submit : Listing → List AdjOverride → Exc Unit)
    (hids : ids ≠ [])
    (hnone : Ls.filter (fun l => l.id ∈ ids) = []) :
    mainUpdate inc dry ids (.ok Ls) fetchOv submit = ⟨[], 1, none⟩
    ∧ update_prices (.ok Ls) fetchOv submit inc2 false ids
        = ⟨.okResults [], []⟩ := by
  have htr : listTruthy ids = true := by
    cases ids with
    | nil => exact absurd rfl hids
    | cons a as => rfl
  constructor
  · simp [mainUpdate, htr, hnone]
  · have hweb : (Ls.filter activeFilter).filter (fun l => l.id ∈ ids) = [] := by
      rw [List.filter_comm, hnone]
      rfl
    simp [update_prices, htr, hweb, processAll]

/-- Witness for C9_amended with `ids = ["42"]` and one fetched listing of
id `"7"`. -/
theorem C9_amended_witness :
    (["42"] ≠ ([] : List String))
    ∧ ([(⟨"7", "A", none, some false, some true, none, none⟩ : Listing)].filter
        (fun l => l.id ∈ ["42"]) = [])
    ∧ (mainUpdate true false ["42"]
          (.ok [⟨"7", "A", none, some false, some true, none, none⟩])
          (fun _ => .ok []) (fun _ _ => .ok ()) = ⟨[], 1, none⟩
      ∧ update_prices (.ok [⟨"7", "A", none, some false, some true, none, none⟩])
          (fun _ => .ok []) (fun _ _ => .ok ()) true false ["42"]
        = ⟨.okResults [], []⟩) :=
  ⟨by simp, by simp, C9_amended true false true ["42"]
    [⟨"7", "A", none, some false, some true, none, none⟩]
    (fun _ => .ok []) (fun _ _ => .ok ()) (by simp) (by simp)⟩

end PriceLabs
